import Mathlib

/-!
Shallow embedding of the retrieval engine in `backend/rag_engine.py`.

The embedder (sentence-transformers model) is an external collaborator; it is
abstracted as a parameter `encode : String → List ℚ`.  The flat vector index
(faiss `IndexFlatL2`) is likewise external; it is modelled from the spec's
VectorIndex contract (flat store, exact k-nearest-neighbour scan by squared
Euclidean distance, results in ascending-distance order, at most `k` of them).
Floats are modelled as rationals; Python lists as Lean lists; the three
persisted artifacts as a record of three `Option` fields (a missing file is
`none`).  Python string operations work on code points, which matches Lean's
`String.data : List Char`.
-/

/-- A metadata record as built by `populate_knowledge_base` (no `added_at`
key) or `add_document` (with `added_at`). -/
structure Metadata where
  category : String
  keywords : List String
  importance : ℚ
  index : Nat
  added_at : Option String
deriving DecidableEq

/-- One entry of the fixed in-code knowledge base literal. -/
structure KBDoc where
  content : String
  category : String
  keywords : List String
  importance : ℚ
deriving DecidableEq

/-- In-memory engine state: the faiss index contents (one vector per added
document, in insertion order), the parallel document list and the parallel
metadata list. -/
structure RAGEngine where
  vectors : List (List ℚ)
  documents : List String
  metadata : List Metadata
deriving DecidableEq

/-- The three persisted artifacts (`vectors.db.index`, `.docs`, `.meta`);
`none` models a missing file. -/
structure FS where
  indexFile : Option (List (List ℚ))
  docsFile : Option (List String)
  metaFile : Option (List Metadata)
deriving DecidableEq

/-- Squared Euclidean distance between two vectors, the metric of faiss
`IndexFlatL2`. -/
def sqDist (u v : List ℚ) : ℚ :=
  ((u.zip v).map (fun p => (p.1 - p.2) ^ 2)).sum

/-- Distances of the query to every stored vector, tagged with their ids, in
storage order (the flat scan). -/
def scanDists (qv : List ℚ) : List (List ℚ) → Nat → List (Nat × ℚ)
  | [], _ => []
  | v :: vs, i => (i, sqDist qv v) :: scanDists qv vs (i + 1)

/-- Candidate order of the index scan output: ascending distance, ties by
ascending id. -/
def distRel (p q : Nat × ℚ) : Prop :=
  p.2 < q.2 ∨ (p.2 = q.2 ∧ p.1 ≤ q.1)

instance : DecidableRel distRel := fun p q =>
  inferInstanceAs (Decidable (p.2 < q.2 ∨ (p.2 = q.2 ∧ p.1 ≤ q.1)))

/-- Modelled from the spec: faiss `IndexFlatL2.search` is external to the
repository; per the spec's VectorIndex contract it returns up to `k`
(id, distance) pairs in ascending-distance order from an exact brute-force
scan, and an empty result when the index is empty or `k ≤ 0`. -/
def vectorSearch (vecs : List (List ℚ)) (qv : List ℚ) (k : Int) : List (Nat × ℚ) :=
  (List.insertionSort distRel (scanDists qv vecs 0)).take k.toNat

/-- A search result tuple `(document, metadata, similarity)`. -/
abbrev SearchResult := String × Metadata × ℚ

/-- The re-ranking key `importance * similarity` of `RAGEngine.search`. -/
def rankKey (r : SearchResult) : ℚ := r.2.1.importance * r.2.2

/-- The loop body of `RAGEngine.search` for one scanned `(id, distance)`
pair: convert the distance to `similarity = 1 / (1 + distance)`, keep the
candidate when `similarity >= threshold`, looking the document and its
metadata up by id.  (Ids produced by the scan are always in range when the
store and index are aligned; an out-of-range id would be a Python
`IndexError` and yields no tuple here.) -/
def candOf (e : RAGEngine) (threshold : ℚ) (p : Nat × ℚ) : Option SearchResult :=
  let sim : ℚ := 1 / (1 + p.2)
  if threshold ≤ sim then
    match e.documents.get? p.1, e.metadata.get? p.1 with
    | some doc, some m => some (doc, m, sim)
    | _, _ => none
  else none

/-- The candidate list built by the loop of `RAGEngine.search`, before the
final sort, in index-scan order. -/
def searchCandidates (encode : String → List ℚ) (e : RAGEngine) (query : String)
    (k : Int) (threshold : ℚ) : List SearchResult :=
  (vectorSearch e.vectors (encode query) k).filterMap (candOf e threshold)

/-- Descending re-rank order of `RAGEngine.search`: `a` may come before `b`
iff `rankKey b ≤ rankKey a`.  Python's `list.sort(key=..., reverse=True)` is a
stable descending sort, which is exactly `List.insertionSort` with this
relation. -/
def rankRel (a b : SearchResult) : Prop := rankKey b ≤ rankKey a

instance : DecidableRel rankRel := fun a b =>
  inferInstanceAs (Decidable (rankKey b ≤ rankKey a))

/-- Method `RAGEngine.search`: embed the query, scan the index, threshold-filter,
then stable-sort descending by `importance * similarity`. -/
def RAGEngine.search (encode : String → List ℚ) (e : RAGEngine) (query : String)
    (k : Int) (threshold : ℚ) : List SearchResult :=
  List.insertionSort rankRel (searchCandidates encode e query k threshold)

/-- Python `str.upper()` on the category tags (all ASCII here): uppercase
every code point. -/
def pyUpper (s : String) : String := String.mk (s.data.map Char.toUpper)

/-- Python slicing `s[:n]` for a nonnegative bound: the first `n` code
points. -/
def pySlice (s : String) (n : Int) : String := String.mk (s.data.take n.toNat)

/-- Python `sep.join(parts)`. -/
def pyJoin (sep : String) : List String → String
  | [] => ""
  | [x] => x
  | x :: y :: xs => x ++ sep ++ pyJoin sep (y :: xs)

/-- One context block `"[CATEGORY] text"` as built by
`get_context_for_query`. -/
def mkBlock (category doc : String) : String :=
  "[" ++ pyUpper category ++ "] " ++ doc

/-- The context-assembly loop of `get_context_for_query`: walk results in
ranked order with a running total of included document characters; append a
whole block while it fits, otherwise truncate the first rejected block when
more than 100 characters of budget remain, and stop. -/
def contextParts (maxLen : Int) : List SearchResult → Int → List String
  | [], _ => []
  | (doc, meta, _) :: rest, total =>
    if total + (doc.length : Int) ≤ maxLen then
      mkBlock meta.category doc :: contextParts maxLen rest (total + (doc.length : Int))
    else
      if 100 < maxLen - total then
        [mkBlock meta.category (pySlice doc (maxLen - total)) ++ "..."]
      else
        []

/-- Method `RAGEngine.get_context_for_query`: search with `k = 5` and the default
threshold `0.7`, return `""` on no results, else join the assembled blocks
with blank lines. -/
def RAGEngine.get_context_for_query (encode : String → List ℚ) (e : RAGEngine)
    (query : String) (max_context_length : Int) : String :=
  let results := RAGEngine.search encode e query 5 (7/10)
  if results.isEmpty then ""
  else pyJoin "\n\n" (contextParts max_context_length results 0)

/-- The fixed stop-word set of `extract_keywords` (the Python literal lists
`could` twice; a set dedups it, and membership is unaffected here). -/
def stop_words : List String :=
  ["the", "is", "at", "which", "on", "and", "a", "an", "as", "are", "was",
   "were", "been", "be", "have", "has", "had", "do", "does", "did", "will",
   "would", "should", "could", "may", "might", "must", "can", "could"]

/-- Word characters of the regex `\b` boundary (`[a-zA-Z0-9_]` after
lowercasing). -/
def isWordChar (c : Char) : Bool := c.isAlphanum || c = '_'

/-- Split a character list into its maximal runs of word characters. -/
def wordRunsAux : List Char → List Char → List (List Char)
  | [], acc => if acc.isEmpty then [] else [acc.reverse]
  | c :: cs, acc =>
    if isWordChar c then wordRunsAux cs (c :: acc)
    else if acc.isEmpty then wordRunsAux cs []
    else acc.reverse :: wordRunsAux cs []

/-- Python `re.findall(r'\b[a-z]+\b', text.lower())`: the maximal runs of
word characters of the lowercased text that consist entirely of letters
`a`-`z` (a run touching a digit or underscore has no word boundary and is
not matched). -/
def pyTokens (text : String) : List String :=
  ((wordRunsAux (text.data.map Char.toLower) []).filter
    (fun r => r.all (fun c => decide ('a' ≤ c ∧ c ≤ 'z')))).map (fun r => String.mk r)

/-- Method `RAGEngine.extract_keywords`: tokenize, drop stop words and tokens of
length at most 2, deduplicate (Python's unordered `list(set(...))`, realized
here with first-occurrence order), keep at most 10. -/
def extract_keywords (text : String) : List String :=
  let words := pyTokens text
  let keywords := words.filter (fun w => !(stop_words.contains w) && decide (2 < w.length))
  keywords.dedup.take 10

/-- The fixed category-trigger table of `update_from_conversation`, in its
Python insertion order. -/
def categoryKeywords : List (String × List String) :=
  [("experience", ["work", "job", "ericsson", "cash4you", "experience"]),
   ("skills", ["skill", "technology", "framework", "language", "tool"]),
   ("projects", ["project", "built", "developed", "created"]),
   ("education", ["education", "degree", "university", "study"]),
   ("personal", ["hobby", "interest", "personal", "like"])]

/-- The category-resolution loop of `update_from_conversation`: the first
table entry one of whose trigger keywords occurs among the extracted
keywords, else the initial value `"general"`. -/
def resolveCategory (keywords : List String) : String :=
  match categoryKeywords.find? (fun p => p.2.any (fun kw => keywords.contains kw)) with
  | some p => p.1
  | none => "general"

/-- The fixed in-code knowledge base of `populate_knowledge_base`. -/
def knowledgeBase : List KBDoc :=
  [⟨ "Sai Teja Reddy is an AI/ML Engineer with 5+ years of experience in developing and deploying machine learning solutions. Currently pursuing Master\x27s in AI at Oklahoma Christian University.",
    "personal", ["introduction", "who", "about"], 1⟩,
   ⟨ "Contact: Email: saitejareddyg97@gmail.com, Phone: +1 (248) 803-3210, Location: Edmond, Oklahoma, USA. LinkedIn: linkedin.com/in/sai-teja-reddy-b5846322b, GitHub: github.com/sgunreddy97",
    "contact", ["contact", "email", "phone", "reach"], 1⟩,
   ⟨ "At Ericsson Canada (Mar 2022 - Jul 2024), worked as Machine Learning Engineer. Built large-scale AI applications for telecom networks processing 100M+ daily events. Fine-tuned transformer-based LLMs achieving 41% reduction in customer query resolution time.",
    "experience", ["ericsson", "experience", "ml engineer", "work"], 1⟩,
   ⟨ "Key achievements at Ericsson: Led integration of RAG (Retrieval-Augmented Generation) with LangChain into internal knowledge platform. Automated ML workflows using Apache Airflow, reduced model deployment time from 5 days to 6 hours.",
    "experience", ["ericsson", "achievements", "rag", "langchain", "airflow"], 9/10⟩,
   ⟨ "At Ericsson, implemented SHAP-based model explainability frameworks for regulatory compliance. Optimized inference pipelines using TensorRT and ONNX, achieving 3x speed improvement. Built distributed training infrastructure using Horovod.",
    "experience", ["ericsson", "shap", "tensorrt", "onnx", "distributed"], 4/5⟩,
   ⟨ "At Cash4You Inc. (Jun 2021 - Feb 2022), worked as Data Scientist. Developed predictive credit scoring models using XGBoost and LightGBM, reducing loan defaults by 23%. Created real-time fraud detection API reducing fraud by 18%.",
    "experience", ["cash4you", "data scientist", "credit", "fraud"], 9/10⟩,
   ⟨ "Cash4You achievements: Engineered 70+ features from transactional and behavioral datasets. Built dynamic Tableau dashboards for C-suite executives. Implemented A/B testing framework for loan approval strategies.",
    "experience", ["cash4you", "features", "tableau", "ab testing"], 4/5⟩,
   ⟨ "At SanSah Innovations (Oct 2018 - Apr 2019), worked as Data Analyst. Developed Power BI dashboards for real-time KPI monitoring. Built customer lifetime value prediction models. Automated ETL processes using Python and SQL.",
    "experience", ["sansah", "data analyst", "power bi", "etl"], 7/10⟩,
   ⟨ "Expert-level skills: Python (95% proficiency), TensorFlow, PyTorch, Hugging Face Transformers, LangChain, Scikit-learn. Extensive experience with LLMs, fine-tuning, and prompt engineering.",
    "skills", ["skills", "python", "tensorflow", "pytorch", "expert"], 1⟩,
   ⟨ "Cloud and MLOps expertise: AWS (SageMaker, EC2, S3, Lambda), GCP (Vertex AI, Cloud Run), Docker, Kubernetes, MLflow, Kubeflow, CI/CD pipelines with Jenkins and GitHub Actions.",
    "skills", ["cloud", "aws", "gcp", "docker", "mlops"], 9/10⟩,
   ⟨ "Big Data and Databases: Apache Spark, Hadoop, Kafka, Airflow, PostgreSQL, MongoDB, Elasticsearch, Redis. Experience with distributed computing and real-time data processing.",
    "skills", ["big data", "spark", "kafka", "database"], 4/5⟩,
   ⟨ "Specialized ML skills: NLP (BERT, GPT, T5), Computer Vision (YOLO, ResNet, Vision Transformers), Time Series (ARIMA, Prophet, LSTM), Reinforcement Learning (PPO, DQN, A3C).",
    "skills", ["nlp", "computer vision", "time series", "reinforcement learning"], 9/10⟩,
   ⟨ "Education: Currently pursuing Master\x27s in Computer Science with AI specialization at Oklahoma Christian University (2024-Present). GPA: 4.0/4.0. Relevant coursework: Advanced ML, Deep Learning, NLP, Computer Vision.",
    "education", ["education", "master", "degree", "university"], 1⟩,
   ⟨ "Previous education: PG Diploma in IT Business Analysis from Conestoga College, Canada (2020-2021). B.Tech in Electronics and Communication Engineering from JNTU Hyderabad (2014-2018).",
    "education", ["diploma", "bachelor", "conestoga", "jntu"], 4/5⟩,
   ⟨ "Certifications: Salesforce AI Associate (2024), Salesforce AI Specialist (2024), AWS Certified Developer - Associate",
    "certifications", ["certification", "salesforce", "aws", "certified"], 9/10⟩,
   ⟨ "LLM Classification Fine-Tuning Project: Fine-tuned DistilBERT for binary classification of instruction prompts. Achieved 92% accuracy. Used Hugging Face Transformers, implemented custom data preprocessing pipeline, deployed on Hugging Face Spaces.",
    "projects", ["llm", "distilbert", "classification", "project"], 9/10⟩,
   ⟨ "Multilingual Speech Recognition System: Built end-to-end pipeline combining Thai ASR (Wav2Vec2) with neural machine translation (MarianMT). Achieved 85% accuracy on Thai to English translation. Real-time processing capability.",
    "projects", ["speech", "recognition", "wav2vec2", "translation"], 9/10⟩,
   ⟨ "Amazon Review Sentiment Analysis: Fine-tuned GPT-2 using LoRA (Low-Rank Adaptation) for parameter-efficient training. Reduced training time by 60% while maintaining 94% accuracy. Implemented custom tokenization for review-specific vocabulary.",
    "projects", ["sentiment", "gpt2", "lora", "amazon"], 9/10⟩,
   ⟨ "IoT Projects: Mobile Sniffer - RF detection device for restricted areas. Smart Trolley - RFID-based automated checkout system. Bus ID for Vision Impaired - Audio notification system using wireless communication.",
    "projects", ["iot", "mobile sniffer", "smart trolley", "bus id"], 7/10⟩,
   ⟨ "Academic achievements: Consistently ranked in top 1% in national competitive exams (NTSE, Math Olympiad). Perfect mathematics scores throughout academic career. Won state-level science exhibition. Founded robotics club in college.",
    "achievements", ["achievements", "top 1%", "olympiad", "awards"], 4/5⟩,
   ⟨ "Professional achievements: Received internal spotlight award at Cash4You for fraud detection system. Led team of 5 engineers at Ericsson. Published 2 research papers on ML applications. Active Kaggle competitor (top 15%).",
    "achievements", ["awards", "leadership", "kaggle", "research"], 4/5⟩,
   ⟨ "Personal interests: Passionate about space exploration and astronomy. Avid movie enthusiast, especially sci-fi and technology films. Enjoys camping and nature photography. Active in teaching and mentoring students.",
    "personal", ["interests", "hobbies", "space", "movies"], 3/5⟩,
   ⟨ "Life goals and values: Plans to adopt and educate 10 underprivileged children. Believes in using AI for social good. Committed to democratizing education through technology. Active in community service and village outreach programs.",
    "personal", ["goals", "values", "social", "education"], 7/10⟩,
   ⟨ "Why hire Sai: Proven track record with 41% improvement in metrics at Fortune 500 companies. Expert in modern AI/ML stack with production deployment experience. Strong business acumen - translates ML into ROI. Continuous learner currently pursuing Master\x27s in AI.",
    "hiring", ["why hire", "unique", "value", "fit"], 1⟩,
   ⟨ "Unique value proposition: Combines deep technical expertise with business understanding. Experience across telecom, finance, and retail industries. Excellent communicator who can explain complex ML to stakeholders. Entrepreneurial mindset with corporate experience.",
    "hiring", ["value", "unique", "strengths", "advantages"], 9/10⟩,
   ⟨ "LLM expertise: Fine-tuned models including BERT, GPT-2, T5, and LLaMA. Experience with prompt engineering, few-shot learning, and chain-of-thought reasoning. Implemented RAG systems using LangChain and vector databases.",
    "technical", ["llm", "bert", "gpt", "prompt engineering"], 9/10⟩,
   ⟨ "Production ML experience: Deployed 15+ models serving millions of requests. Implemented A/B testing frameworks for model comparison. Built monitoring systems for model drift detection. Experience with edge deployment and model optimization.",
    "technical", ["production", "deployment", "monitoring", "optimization"], 9/10⟩]

/-- A freshly constructed engine before population (empty faiss index, empty
parallel lists). -/
def emptyEngine : RAGEngine := ⟨[], [], []⟩

/-- The enumerated population loop of `populate_knowledge_base`: embed each
entry, append the vector to the index and the content and metadata (with the
enumeration index, no `added_at`) to the parallel lists. -/
def populateFrom (encode : String → List ℚ) : Nat → List KBDoc → RAGEngine → RAGEngine
  | _, [], e => e
  | idx, d :: ds, e =>
    populateFrom encode (idx + 1) ds
      ⟨e.vectors ++ [encode d.content], e.documents ++ [d.content],
       e.metadata ++ [⟨d.category, d.keywords, d.importance, idx, none⟩]⟩

/-- Method `RAGEngine.populate_knowledge_base` over the fixed in-code list. -/
def RAGEngine.populate_knowledge_base (encode : String → List ℚ) (e : RAGEngine) :
    RAGEngine :=
  populateFrom encode 0 knowledgeBase e

/-- Method `RAGEngine.save_vector_db`: write the three artifacts, replacing whatever
was on disk. -/
def RAGEngine.save_vector_db (e : RAGEngine) : FS :=
  ⟨some e.vectors, some e.documents, some e.metadata⟩

/-- Method `initialize_vector_db`: the load-or-build bootstrap.  The Python guard
tests existence of only the index and docs artifacts; when both are present
it loads all three, so a missing metadata artifact in that case is an
unhandled `FileNotFoundError` from `open`.  Otherwise it builds a fresh
index, populates the default knowledge base and saves a fresh triple. -/
def setupVectorDb (encode : String → List ℚ) (fs : FS) :
    Except String (RAGEngine × FS) :=
  match fs.indexFile, fs.docsFile with
  | some vecs, some docs =>
    match fs.metaFile with
    | some meta => Except.ok (⟨vecs, docs, meta⟩, fs)
    | none => Except.error "FileNotFoundError"
  | _, _ =>
    let e := RAGEngine.populate_knowledge_base encode emptyEngine
    Except.ok (e, RAGEngine.save_vector_db e)

/-- The in-memory effect of `RAGEngine.add_document`: embed, append the
vector, append the content, append metadata whose `index` field is
`len(documents) - 1` measured after the append and which carries a
timestamp. -/
def RAGEngine.add_document (encode : String → List ℚ) (now : String) (e : RAGEngine)
    (content category : String) (keywords : List String) (importance : ℚ) : RAGEngine :=
  let documents := e.documents ++ [content]
  ⟨e.vectors ++ [encode content], documents,
   e.metadata ++ [⟨category, keywords, importance, documents.length - 1, some now⟩]⟩

/-- Method `add_document` together with its trailing `save_vector_db` call, in a
world where the disk write may fail: the in-memory appends happen first;
the save then either replaces the artifacts or leaves the disk untouched and
lets the exception propagate (third component `true`). -/
def addDocumentWithSave (encode : String → List ℚ) (now : String) (saveOk : Bool)
    (e : RAGEngine) (fs : FS) (content category : String) (keywords : List String)
    (importance : ℚ) : RAGEngine × FS × Bool :=
  let e2 := RAGEngine.add_document encode now e content category keywords importance
  if saveOk then (e2, RAGEngine.save_vector_db e2, false) else (e2, fs, true)

/-- Method `RAGEngine.update_from_conversation`: act only when
`effectiveness > 0.7`; extract keywords from the query, resolve a category
from the trigger table, and add a `"Q: ...\nA: ..."` document with
`importance = effectiveness`. -/
def RAGEngine.update_from_conversation (encode : String → List ℚ) (now : String)
    (e : RAGEngine) (query response : String) (effectiveness : ℚ) : RAGEngine :=
  if 7/10 < effectiveness then
    let keywords := extract_keywords query
    RAGEngine.add_document encode now e ("Q: " ++ query ++ "\nA: " ++ response)
      (resolveCategory keywords) keywords effectiveness
  else e

/-- A fixed embedder for concrete instantiations: the vector whose single
component is the text length. -/
def wEncode : String → List ℚ := fun s => [(s.length : ℚ)]

/-- A small concrete aligned engine state for concrete instantiations. -/
def wEngine : RAGEngine := ⟨[[1]], ["d"], [⟨"c", [], 1, 0, none⟩]⟩

/-- The alignment invariant: the index holds exactly the embeddings of the
stored documents, in order, and the metadata list has the same length as the
document list. -/
def aligned (encode : String → List ℚ) (e : RAGEngine) : Prop :=
  e.vectors = e.documents.map encode ∧ e.metadata.length = e.documents.length

/-- The implicit metadata-ordinal invariant: the record at position `j`
carries `index = j`. -/
def metaIdxOk (e : RAGEngine) : Prop :=
  ∀ (j : Nat) (m : Metadata), e.metadata[j]? = some m → m.index = j

/-! ## Sanity checks on concrete inputs -/

example :
    RAGEngine.search (fun _ => [0]) ⟨[[0]], ["abcde"], [⟨"a", [], 1, 0, none⟩]⟩
      "q" 5 (7/10) = [("abcde", ⟨"a", [], 1, 0, none⟩, 1)] := by
  norm_num [RAGEngine.search, searchCandidates, candOf, vectorSearch, scanDists, sqDist,
    List.insertionSort, List.orderedInsert, List.filterMap]

example : extract_keywords "Tell me about the Ericsson experience!" =
    ["tell", "about", "ericsson", "experience"] := by decide

/-! ## Properties of the re-rank sort -/

instance : IsTotal SearchResult rankRel :=
  ⟨fun a b => le_total (rankKey b) (rankKey a)⟩

instance : IsTrans SearchResult rankRel :=
  ⟨fun _ _ _ h1 h2 => le_trans h2 h1⟩

/-- Inserting `a` into `l` in descending-key order passes only over elements
of strictly larger key, so the subsequence of elements with any fixed key `c`
gains `a` at its front when `rankKey a = c` and is untouched otherwise. -/
theorem filter_rank_orderedInsert (c : ℚ) (a : SearchResult) (l : List SearchResult) :
    (List.orderedInsert rankRel a l).filter (fun x => decide (rankKey x = c)) =
      if rankKey a = c then
        a :: l.filter (fun x => decide (rankKey x = c))
      else l.filter (fun x => decide (rankKey x = c)) := by
  induction l with
  | nil =>
    by_cases h : rankKey a = c <;>
      simp [List.orderedInsert, List.filter, h]
  | cons b l ih =>
    by_cases hab : rankRel a b
    · by_cases ha : rankKey a = c <;>
        by_cases hb : rankKey b = c <;>
          simp [List.orderedInsert, hab, List.filter, ha, hb]
    · have hb : ¬ rankKey b = c ∨ ¬ rankKey a = c := by
        by_cases ha : rankKey a = c
        · left
          intro hbc
          exact hab (le_of_eq (hbc.trans ha.symm))
        · right
          exact ha
      by_cases ha : rankKey a = c
      · rcases hb with hb | hb
        · simp [List.orderedInsert, hab, List.filter, ha, hb, ih]
        · exact absurd ha hb
      · by_cases hb2 : rankKey b = c <;>
          simp [List.orderedInsert, hab, List.filter, ha, hb2, ih]

/-- Stability of the descending re-rank sort: it permutes elements only
across distinct keys, so for every key value the subsequence with that key is
exactly the one of the input list, in the input order. -/
theorem filter_rank_insertionSort (c : ℚ) (l : List SearchResult) :
    (List.insertionSort rankRel l).filter (fun x => decide (rankKey x = c)) =
      l.filter (fun x => decide (rankKey x = c)) := by
  induction l with
  | nil => rfl
  | cons a l ih =>
    by_cases ha : rankKey a = c <;>
      simp [List.insertionSort, filter_rank_orderedInsert, ha, ih, List.filter]

/-- C3: in every `search` output, whenever result A precedes result B the
rank key `importance(A) * similarity(A)` is at least
`importance(B) * similarity(B)`; and for each key value, the results carrying
that key appear in exactly the order the index scan produced them
(`searchCandidates` is the scan-ordered, threshold-filtered candidate list
that `search` sorts). -/
theorem C3_ranking_order (encode : String → List ℚ) (e : RAGEngine) (q : String)
    (k : Int) (θ : ℚ) :
    List.Pairwise
      (fun a b : SearchResult => rankKey b ≤ rankKey a)
      (RAGEngine.search encode e q k θ) ∧
    ∀ c : ℚ,
      (RAGEngine.search encode e q k θ).filter (fun r => decide (rankKey r = c)) =
        (searchCandidates encode e q k θ).filter (fun r => decide (rankKey r = c)) := by
  constructor
  · exact List.sorted_insertionSort rankRel (searchCandidates encode e q k θ)
  · intro c
    exact filter_rank_insertionSort c (searchCandidates encode e q k θ)

/-! ## Threshold monotonicity -/

/-- Characterization of the loop body: it yields a tuple exactly when the
threshold is cleared and both lookups succeed, and the tuple then carries the
looked-up document, metadata and the converted similarity. -/
theorem candOf_eq_some (e : RAGEngine) (t : ℚ) (p : Nat × ℚ) (r : SearchResult) :
    candOf e t p = some r ↔
      t ≤ 1 / (1 + p.2) ∧ r.2.2 = 1 / (1 + p.2) ∧
        e.documents.get? p.1 = some r.1 ∧ e.metadata.get? p.1 = some r.2.1 := by
  obtain ⟨a, b, c⟩ := r
  simp only [candOf]
  by_cases ht : t ≤ 1 / (1 + p.2)
  · rw [if_pos ht]
    cases hd : e.documents.get? p.1 with
    | none => simp [hd, ht, -one_div]
    | some doc =>
      cases hm : e.metadata.get? p.1 with
      | none => simp [hd, hm, ht, -one_div]
      | some m =>
        simp only [hd, hm, ht, true_and, Option.some.injEq, Prod.mk.injEq]
        constructor
        · rintro ⟨h1, h2, h3⟩
          subst h1; subst h2; subst h3
          exact ⟨rfl, rfl, rfl⟩
        · rintro ⟨h3, h1, h2⟩
          subst h3; subst h1; subst h2
          exact ⟨rfl, rfl, rfl⟩
  · rw [if_neg ht]
    simp [ht, -one_div]

/-- Raising the threshold filters the scan-ordered candidate list: the
candidates at threshold `t2` are exactly the candidates at a lower threshold
`t1` whose stored similarity also clears `t2`. -/
theorem searchCandidates_eq_filter (encode : String → List ℚ) (e : RAGEngine)
    (q : String) (k : Int) {t1 t2 : ℚ} (h : t1 ≤ t2) :
    searchCandidates encode e q k t2 =
      (searchCandidates encode e q k t1).filter (fun r => decide (t2 ≤ r.2.2)) := by
  unfold searchCandidates
  generalize vectorSearch e.vectors (encode q) k = L
  induction L with
  | nil => rfl
  | cons p l ih =>
    rw [List.filterMap_cons, List.filterMap_cons]
    rcases h2 : candOf e t2 p with _ | r
    · rcases h1 : candOf e t1 p with _ | r
      · exact ih
      · have hr : ¬ t2 ≤ r.2.2 := by
          intro hq
          obtain ⟨ht1, hsim, hd, hm⟩ := (candOf_eq_some e t1 p r).mp h1
          have : candOf e t2 p = some r :=
            (candOf_eq_some e t2 p r).mpr ⟨hsim ▸ hq, hsim, hd, hm⟩
          rw [this] at h2
          cases h2
        rw [List.filter_cons_of_neg (by simpa using hr)]
        exact ih
    · obtain ⟨ht2, hsim, hd, hm⟩ := (candOf_eq_some e t2 p r).mp h2
      have h1 : candOf e t1 p = some r :=
        (candOf_eq_some e t1 p r).mpr ⟨le_trans h ht2, hsim, hd, hm⟩
      rw [h1, List.filter_cons_of_pos (by simpa using hsim ▸ ht2)]
      rw [ih]

/-- C6: for a fixed query and fixed `k`, raising the threshold never grows
the result set: with `t1 ≤ t2` the `t2`-results are no more numerous than
the `t1`-results and every `t2`-result is also a `t1`-result. -/
theorem C6_threshold_monotonic (encode : String → List ℚ) (e : RAGEngine)
    (q : String) (k : Int) {t1 t2 : ℚ} (h : t1 ≤ t2) :
    (RAGEngine.search encode e q k t2).length ≤
        (RAGEngine.search encode e q k t1).length ∧
    ∀ r, r ∈ RAGEngine.search encode e q k t2 →
      r ∈ RAGEngine.search encode e q k t1 := by
  constructor
  · rw [RAGEngine.search, RAGEngine.search, List.length_insertionSort,
      List.length_insertionSort, searchCandidates_eq_filter encode e q k h]
    exact List.length_filter_le _ _
  · intro r hr
    rw [RAGEngine.search, List.mem_insertionSort] at hr ⊢
    rw [searchCandidates_eq_filter encode e q k h] at hr
    exact List.mem_of_mem_filter hr

/-- Witness for C6 at threshold pair `1/2 ≤ 3/4` on a concrete engine. -/
theorem C6_threshold_monotonic_witness :
    (1 : ℚ)/2 ≤ 3/4 ∧
    ((RAGEngine.search wEncode wEngine "q" 5 (3/4)).length ≤
        (RAGEngine.search wEncode wEngine "q" 5 (1/2)).length ∧
      ∀ r, r ∈ RAGEngine.search wEncode wEngine "q" 5 (3/4) →
        r ∈ RAGEngine.search wEncode wEngine "q" 5 (1/2)) :=
  ⟨by norm_num, C6_threshold_monotonic wEncode wEngine "q" 5 (by norm_num)⟩

/-! ## Search edge cases -/

/-- A squared Euclidean distance is nonnegative. -/
theorem sqDist_nonneg (u v : List ℚ) : 0 ≤ sqDist u v := by
  apply List.sum_nonneg
  intro x hx
  obtain ⟨p, _, rfl⟩ := List.mem_map.mp hx
  positivity

/-- Every distance produced by the flat scan is the squared distance to some
stored vector. -/
theorem scanDists_mem {qv : List ℚ} {p : Nat × ℚ} :
    ∀ {vs : List (List ℚ)} {i : Nat}, p ∈ scanDists qv vs i →
      ∃ v ∈ vs, p.2 = sqDist qv v := by
  intro vs
  induction vs with
  | nil => intro i h; cases h
  | cons v vs ih =>
    intro i h
    rw [scanDists] at h
    rcases List.mem_cons.mp h with h | h
    · exact ⟨v, List.mem_cons_self v vs, by rw [h]⟩
    · obtain ⟨w, hw, hew⟩ := ih h
      exact ⟨w, List.mem_cons_of_mem _ hw, hew⟩

/-- Every hit of `vectorSearch` carries the squared distance to some stored
vector. -/
theorem vectorSearch_mem {vecs : List (List ℚ)} {qv : List ℚ} {k : Int}
    {p : Nat × ℚ} (h : p ∈ vectorSearch vecs qv k) :
    ∃ v ∈ vecs, p.2 = sqDist qv v := by
  have h2 : p ∈ List.insertionSort distRel (scanDists qv vecs 0) :=
    List.mem_of_mem_take h
  rw [List.mem_insertionSort] at h2
  exact scanDists_mem h2

/-- C7: `search` handles its edge cases by returning an empty list rather
than erring: `k ≤ 0` gives an empty result; a threshold of at least 1 gives
an empty result whenever no stored vector has similarity exactly 1 to the
query embedding; and an empty index gives an empty result. -/
theorem C7_search_edge_cases (encode : String → List ℚ) (e : RAGEngine)
    (q : String) (k : Int) (θ : ℚ) :
    (k ≤ 0 → RAGEngine.search encode e q k θ = []) ∧
    (1 ≤ θ → (∀ v ∈ e.vectors, 1 / (1 + sqDist (encode q) v) ≠ 1) →
      RAGEngine.search encode e q k θ = []) ∧
    (e.vectors = [] → RAGEngine.search encode e q k θ = []) := by
  refine ⟨?_, ?_, ?_⟩
  · intro hk
    have hz : k.toNat = 0 := Int.toNat_of_nonpos hk
    simp [RAGEngine.search, searchCandidates, vectorSearch, hz]
  · intro hθ hno
    have hcand : searchCandidates encode e q k θ = [] := by
      rw [searchCandidates, List.filterMap_eq_nil_iff]
      intro p hp
      obtain ⟨v, hv, hd⟩ := vectorSearch_mem hp
      have hd0 : 0 ≤ sqDist (encode q) v := sqDist_nonneg _ _
      have hne : sqDist (encode q) v ≠ 0 := by
        intro h0
        apply hno v hv
        rw [h0]
        norm_num
      have hlt : 1 / (1 + p.2) < 1 := by
        rw [hd]
        have hpos : 0 < sqDist (encode q) v := lt_of_le_of_ne hd0 (Ne.symm hne)
        rw [div_lt_one (by linarith)]
        linarith
      simp only [candOf]
      rw [if_neg (fun hc => absurd (le_trans hθ hc) (not_le.mpr hlt))]
    rw [RAGEngine.search, hcand]
    rfl
  · intro hv
    simp [RAGEngine.search, searchCandidates, vectorSearch, hv, scanDists]

/-- Witness for C7 at `k = 0` on a concrete engine. -/
theorem C7_search_edge_cases_witness :
    (0 : Int) ≤ 0 ∧ RAGEngine.search wEncode wEngine "q" 0 (7/10) = [] :=
  ⟨le_refl 0, (C7_search_edge_cases wEncode wEngine "q" 0 (7/10)).1 (le_refl 0)⟩

/-! ## Keyword extraction -/

/-- Every token produced by the tokenizer consists solely of lowercase
letters `a`-`z`. -/
theorem pyTokens_chars {text : String} {w : String} (h : w ∈ pyTokens text) :
    ∀ c ∈ w.data, 'a' ≤ c ∧ c ≤ 'z' := by
  rw [pyTokens] at h
  obtain ⟨r, hr, rfl⟩ := List.mem_map.mp h
  intro c hc
  have hall := List.of_mem_filter hr
  exact of_decide_eq_true (List.all_eq_true.mp hall c hc)

/-- C8: `extract_keywords` returns at most 10 keywords, without duplicates,
each a lowercase alphabetic token of the input of length greater than 2 that
is not a stop word; and it degrades to the empty list when no token
qualifies. -/
theorem C8_extract_keywords (text : String) :
    (extract_keywords text).length ≤ 10 ∧
    (extract_keywords text).Nodup ∧
    (∀ w ∈ extract_keywords text,
      w ∈ pyTokens text ∧ 2 < w.length ∧ w ∉ stop_words ∧
        ∀ c ∈ w.data, 'a' ≤ c ∧ c ≤ 'z') ∧
    ((∀ w ∈ pyTokens text, w ∈ stop_words ∨ w.length ≤ 2) →
      extract_keywords text = []) := by
  refine ⟨?_, ?_, ?_, ?_⟩
  · simp only [extract_keywords]
    exact List.length_take_le _ _
  · simp only [extract_keywords]
    exact List.Nodup.sublist (List.take_sublist _ _) (List.nodup_dedup _)
  · intro w hw
    simp only [extract_keywords] at hw
    have hw2 := List.mem_dedup.mp (List.mem_of_mem_take hw)
    have hp := List.of_mem_filter hw2
    have hmem := List.mem_of_mem_filter hw2
    rw [Bool.and_eq_true, Bool.not_eq_true'] at hp
    refine ⟨hmem, of_decide_eq_true hp.2, ?_, pyTokens_chars hmem⟩
    intro hmem2
    rw [← List.elem_iff] at hmem2
    exact Bool.false_ne_true ((hp.1).symm.trans (hmem2 : stop_words.contains w = true))
  · intro hall
    simp only [extract_keywords]
    have hnil : (pyTokens text).filter
        (fun w => !(stop_words.contains w) && decide (2 < w.length)) = [] := by
      rw [List.filter_eq_nil_iff]
      intro w hw
      rcases hall w hw with hs | hs
      · rw [Bool.and_eq_true, Bool.not_eq_true']
        rintro ⟨h1, -⟩
        rw [← List.elem_iff] at hs
        exact Bool.false_ne_true (h1.symm.trans (hs : stop_words.contains w = true))
      · rw [Bool.and_eq_true]
        rintro ⟨-, h2⟩
        exact absurd (of_decide_eq_true h2) (not_lt.mpr hs)
    rw [hnil]
    rfl

/-- Witness for C8 on a concrete text: instantiates the per-keyword clause
at a concrete member and the degradation clause vacuously-nontrivially. -/
theorem C8_extract_keywords_witness :
    "hello" ∈ pyTokens "Hello, world! The a b" ∧ 2 < ("hello" : String).length ∧
      "hello" ∉ stop_words ∧ ∀ c ∈ ("hello" : String).data, 'a' ≤ c ∧ c ≤ 'z' :=
  (C8_extract_keywords "Hello, world! The a b").2.2.1 "hello" (by decide)

/-! ## Alignment of the document store and the vector index -/

/-- A fresh engine is trivially aligned. -/
theorem aligned_empty (encode : String → List ℚ) : aligned encode emptyEngine :=
  ⟨rfl, rfl⟩

/-- Operation `add_document` preserves alignment: it appends one embedding, one
document and one metadata record. -/
theorem aligned_add_document (encode : String → List ℚ) (now : String)
    (e : RAGEngine) (content category : String) (kws : List String) (imp : ℚ)
    (h : aligned encode e) :
    aligned encode (RAGEngine.add_document encode now e content category kws imp) := by
  obtain ⟨h1, h2⟩ := h
  constructor
  · simp [RAGEngine.add_document, h1]
  · simp [RAGEngine.add_document, h2]

/-- The population loop preserves alignment. -/
theorem aligned_populateFrom (encode : String → List ℚ) :
    ∀ (ds : List KBDoc) (i : Nat) (e : RAGEngine), aligned encode e →
      aligned encode (populateFrom encode i ds e) := by
  intro ds
  induction ds with
  | nil => intro i e h; exact h
  | cons d ds ih =>
    intro i e h
    obtain ⟨h1, h2⟩ := h
    apply ih
    constructor
    · simp [h1]
    · simp [h2]

/-- C4: the document store and the vector index stay index-aligned: the
freshly populated default knowledge base is aligned; `add_document` and the
`add_document` performed by `update_from_conversation` preserve alignment;
a load of a saved engine reproduces that engine exactly; and alignment means
equal lengths with the i-th vector being the embedding of the i-th
document. -/
theorem C4_alignment_invariant (encode : String → List ℚ)
    (now content category : String) (kws : List String) (imp eff : ℚ)
    (q resp : String) (e : RAGEngine) (h : aligned encode e) :
    aligned encode (RAGEngine.populate_knowledge_base encode emptyEngine) ∧
    aligned encode (RAGEngine.add_document encode now e content category kws imp) ∧
    aligned encode (RAGEngine.update_from_conversation encode now e q resp eff) ∧
    setupVectorDb encode (RAGEngine.save_vector_db e) =
      Except.ok (e, RAGEngine.save_vector_db e) ∧
    (∀ s : RAGEngine, aligned encode s →
      s.vectors.length = s.documents.length ∧
      ∀ i : Nat, s.vectors[i]? = Option.map encode s.documents[i]?) := by
  refine ⟨?_, ?_, ?_, ?_, ?_⟩
  · exact aligned_populateFrom encode knowledgeBase 0 emptyEngine (aligned_empty encode)
  · exact aligned_add_document encode now e content category kws imp h
  · rw [RAGEngine.update_from_conversation]
    by_cases he : 7/10 < eff
    · rw [if_pos he]
      exact aligned_add_document encode now e _ _ _ _ h
    · rw [if_neg he]
      exact h
  · rfl
  · intro s hs
    constructor
    · rw [hs.1, List.length_map]
    · intro i
      rw [hs.1, List.getElem?_map]

/-- Witness for C4 at the trivially aligned empty engine. -/
theorem C4_alignment_invariant_witness :
    aligned wEncode emptyEngine ∧
    aligned wEncode (RAGEngine.populate_knowledge_base wEncode emptyEngine) :=
  ⟨⟨rfl, rfl⟩,
    (C4_alignment_invariant wEncode "t" "c" "general" [] 1 1 "q" "r" emptyEngine
      ⟨rfl, rfl⟩).1⟩

/-- C9: if the disk write at the end of `add_document` fails, the in-memory
state is unaffected by the failure: the document, vector and metadata have
already been appended, alignment still holds, and only the on-disk artifacts
are left stale. -/
theorem C9_save_failure_consistency (encode : String → List ℚ)
    (now content category : String) (kws : List String) (imp : ℚ)
    (e : RAGEngine) (fs : FS) (h : aligned encode e) :
    ∀ saveOk : Bool,
      (addDocumentWithSave encode now saveOk e fs content category kws imp).1 =
        RAGEngine.add_document encode now e content category kws imp ∧
      aligned encode (addDocumentWithSave encode now saveOk e fs content category kws imp).1 ∧
      ((addDocumentWithSave encode now saveOk e fs content category kws imp).2.2 = true →
        (addDocumentWithSave encode now saveOk e fs content category kws imp).2.1 = fs) := by
  intro saveOk
  cases saveOk with
  | false =>
    refine ⟨rfl, ?_, fun _ => rfl⟩
    exact aligned_add_document encode now e content category kws imp h
  | true =>
    refine ⟨rfl, ?_, fun hcontra => by cases hcontra⟩
    exact aligned_add_document encode now e content category kws imp h

/-- Witness for C9 at the empty engine with a failing save. -/
theorem C9_save_failure_consistency_witness :
    aligned wEncode emptyEngine ∧
    (addDocumentWithSave wEncode "t" false emptyEngine ⟨none, none, none⟩
        "c" "general" [] 1).1 =
      RAGEngine.add_document wEncode "t" emptyEngine "c" "general" [] 1 :=
  ⟨⟨rfl, rfl⟩,
    ((C9_save_failure_consistency wEncode "t" "c" "general" [] 1 emptyEngine
      ⟨none, none, none⟩ ⟨rfl, rfl⟩) false).1⟩

/-! ## The stored ordinal matches the position -/

/-- Appending one record whose `index` field equals the current length
preserves the position-ordinal correspondence. -/
theorem metaIdx_append {l : List Metadata} {entry : Metadata}
    (h : ∀ (j : Nat) (m : Metadata), l[j]? = some m → m.index = j)
    (he : entry.index = l.length) :
    ∀ (j : Nat) (m : Metadata), (l ++ [entry])[j]? = some m → m.index = j := by
  intro j m hj
  rcases lt_trichotomy j l.length with hlt | heq | hgt
  · rw [List.getElem?_append_left hlt] at hj
    exact h j m hj
  · subst heq
    rw [List.getElem?_concat_length] at hj
    injection hj with hj
    subst hj
    exact he
  · have hnone : (l ++ [entry])[j]? = none := by
      rw [List.getElem?_eq_none_iff]
      simp only [List.length_append, List.length_singleton]
      omega
    rw [hnone] at hj
    cases hj

/-- The population loop assigns each appended record the running enumeration
index, which equals its position whenever the loop starts with the index at
the current length. -/
theorem metaIdxOk_populateFrom (encode : String → List ℚ) :
    ∀ (ds : List KBDoc) (i : Nat) (e : RAGEngine), metaIdxOk e →
      i = e.metadata.length → metaIdxOk (populateFrom encode i ds e) := by
  intro ds
  induction ds with
  | nil => intro i e h _; exact h
  | cons d ds ih =>
    intro i e h hi
    apply ih (i + 1)
    · exact metaIdx_append h hi
    · simp [hi]

/-- C10: every metadata record stores its own position: this holds for the
freshly populated knowledge base (enumeration index) and is preserved by
`add_document` (which stores `len(documents) - 1`, measured after the
append, in a store whose metadata and documents have equal length). -/
theorem C10_metadata_ordinal (encode : String → List ℚ)
    (now content category : String) (kws : List String) (imp : ℚ)
    (e : RAGEngine) (h1 : metaIdxOk e)
    (h2 : e.metadata.length = e.documents.length) :
    metaIdxOk (RAGEngine.populate_knowledge_base encode emptyEngine) ∧
    metaIdxOk (RAGEngine.add_document encode now e content category kws imp) := by
  constructor
  · apply metaIdxOk_populateFrom encode knowledgeBase 0 emptyEngine
    · intro j m hj
      cases hj
    · rfl
  · intro j m hj
    apply metaIdx_append h1 _ j m hj
    simp [h2]

/-- Witness for C10 at the empty engine. -/
theorem C10_metadata_ordinal_witness :
    metaIdxOk emptyEngine ∧
    metaIdxOk (RAGEngine.populate_knowledge_base wEncode emptyEngine) :=
  ⟨(fun _ _ hj => by cases hj),
    (C10_metadata_ordinal wEncode "t" "c" "general" [] 1 emptyEngine
      (fun _ _ hj => by cases hj) rfl).1⟩

/-! ## Load-or-build bootstrap -/

/-- C2 counterexample: with the index and document artifacts present but the
metadata artifact missing, initialization raises (an unhandled
`FileNotFoundError` from opening the metadata file) instead of falling back
to rebuilding the default knowledge base. -/
theorem C2_load_fallback_cex :
    setupVectorDb wEncode ⟨some [[1]], some ["d"], none⟩ =
      Except.error "FileNotFoundError" := rfl

/-- C2 (amended): initialization falls back to rebuilding, re-embedding and
re-saving the default knowledge base exactly when the index artifact or the
document artifact is missing; when both of those are present, a missing
metadata artifact raises, and a full triple is loaded as-is. -/
theorem C2_load_fallback (encode : String → List ℚ) (fs : FS) :
    ((fs.indexFile = none ∨ fs.docsFile = none) →
      setupVectorDb encode fs =
        Except.ok (RAGEngine.populate_knowledge_base encode emptyEngine,
          RAGEngine.save_vector_db
            (RAGEngine.populate_knowledge_base encode emptyEngine))) ∧
    (∀ (vecs : List (List ℚ)) (docs : List String),
      fs.indexFile = some vecs → fs.docsFile = some docs → fs.metaFile = none →
      setupVectorDb encode fs = Except.error "FileNotFoundError") ∧
    (∀ (vecs : List (List ℚ)) (docs : List String) (meta : List Metadata),
      fs.indexFile = some vecs → fs.docsFile = some docs →
      fs.metaFile = some meta →
      setupVectorDb encode fs = Except.ok (⟨vecs, docs, meta⟩, fs)) := by
  obtain ⟨i, d, m⟩ := fs
  refine ⟨?_, ?_, ?_⟩
  · rintro (h | h)
    · subst h
      cases d <;> rfl
    · subst h
      cases i <;> rfl
  · rintro vecs docs h1 h2 h3
    subst h1; subst h2; subst h3
    rfl
  · rintro vecs docs meta h1 h2 h3
    subst h1; subst h2; subst h3
    rfl

/-- Witness for C2 with all three artifacts missing: the engine rebuilds and
saves a fresh triple. -/
theorem C2_load_fallback_witness :
    setupVectorDb wEncode ⟨none, none, none⟩ =
      Except.ok (RAGEngine.populate_knowledge_base wEncode emptyEngine,
        RAGEngine.save_vector_db
          (RAGEngine.populate_knowledge_base wEncode emptyEngine)) :=
  (C2_load_fallback wEncode ⟨none, none, none⟩).1 (Or.inl rfl)

/-! ## Learning from conversations -/

/-- Searching with `find?` over a prefix of failures returns the first success. -/
theorem find?_first {α : Type} (pred : α → Bool) :
    ∀ (l1 : List α) (p : α) (l2 : List α), pred p = true →
      (∀ q ∈ l1, pred q = false) → (l1 ++ p :: l2).find? pred = some p := by
  intro l1
  induction l1 with
  | nil =>
    intro p l2 hp _
    exact List.find?_cons_of_pos _ hp
  | cons a l1 ih =>
    intro p l2 hp hl
    rw [List.cons_append, List.find?_cons_of_neg _ (by simp [hl a (List.mem_cons_self a l1)])]
    exact ih p l2 hp (fun q hq => hl q (List.mem_cons_of_mem a hq))

/-- C5: `update_from_conversation` inserts exactly when
`effectiveness > 0.7`; the insertion appends one vector, the document
`"Q: {query}\nA: {response}"` and a metadata record carrying the extracted
keywords and `importance = effectiveness`; and the resolved category is the
first entry of the fixed trigger table whose trigger list intersects the
extracted keywords, `"general"` when none does. -/
theorem C5_update_from_conversation (encode : String → List ℚ) (now : String)
    (e : RAGEngine) (q resp : String) (eff : ℚ) :
    (eff ≤ 7/10 → RAGEngine.update_from_conversation encode now e q resp eff = e) ∧
    (7/10 < eff →
      (RAGEngine.update_from_conversation encode now e q resp eff).documents =
        e.documents ++ ["Q: " ++ q ++ "\nA: " ++ resp] ∧
      (RAGEngine.update_from_conversation encode now e q resp eff).vectors =
        e.vectors ++ [encode ("Q: " ++ q ++ "\nA: " ++ resp)] ∧
      (RAGEngine.update_from_conversation encode now e q resp eff).metadata =
        e.metadata ++ [⟨resolveCategory (extract_keywords q), extract_keywords q,
          eff, e.documents.length, some now⟩]) ∧
    ((∀ p ∈ categoryKeywords, ∀ kw ∈ p.2, kw ∉ extract_keywords q) →
      resolveCategory (extract_keywords q) = "general") ∧
    (∀ (l1 : List (String × List String)) (p : String × List String)
        (l2 : List (String × List String)),
      categoryKeywords = l1 ++ p :: l2 →
      (∃ kw ∈ p.2, kw ∈ extract_keywords q) →
      (∀ p2 ∈ l1, ∀ kw ∈ p2.2, kw ∉ extract_keywords q) →
      resolveCategory (extract_keywords q) = p.1) := by
  refine ⟨?_, ?_, ?_, ?_⟩
  · intro he
    rw [RAGEngine.update_from_conversation, if_neg (not_lt.mpr he)]
  · intro he
    rw [RAGEngine.update_from_conversation, if_pos he]
    refine ⟨rfl, rfl, ?_⟩
    simp [RAGEngine.add_document]
  · intro hnone
    rw [resolveCategory, List.find?_eq_none.mpr]
    intro p hp
    rw [Bool.not_eq_true, List.any_eq_false]
    intro kw hkw
    rw [Bool.not_eq_true]
    rcases hcon : (extract_keywords q).contains kw with _ | _
    · rfl
    · exact absurd (List.elem_iff.mp hcon) (hnone p hp kw hkw)
  · intro l1 p l2 heq hyes hno
    rw [resolveCategory, heq, find?_first]
    · obtain ⟨kw, hkw, hmem⟩ := hyes
      rw [List.any_eq_true]
      exact ⟨kw, hkw, List.elem_iff.mpr hmem⟩
    · intro p2 hp2
      rw [List.any_eq_false]
      intro kw hkw
      rw [Bool.not_eq_true]
      rcases hcon : (extract_keywords q).contains kw with _ | _
      · rfl
      · exact absurd (List.elem_iff.mp hcon) (hno p2 hp2 kw hkw)

/-- Witness for C5: an effectiveness of `0.5` performs no insertion. -/
theorem C5_update_from_conversation_witness :
    (1 : ℚ)/2 ≤ 7/10 ∧
    RAGEngine.update_from_conversation wEncode "t" wEngine "hi" "resp" (1/2) = wEngine :=
  ⟨by norm_num,
    (C5_update_from_conversation wEncode "t" wEngine "hi" "resp" (1/2)).1 (by norm_num)⟩

/-! ## Context budget -/

/-- Uppercasing preserves length. -/
theorem pyUpper_length (s : String) : (pyUpper s).length = s.length := by
  show (s.data.map Char.toUpper).length = s.length
  rw [List.length_map]
  rfl

/-- Length of one context block: the document plus a 3-character tag
overhead beyond the category name. -/
theorem mkBlock_length (cat doc : String) :
    (mkBlock cat doc).length = cat.length + 3 + doc.length := by
  rw [mkBlock, String.length_append, String.length_append, String.length_append,
    pyUpper_length]
  have h1 : ("[" : String).length = 1 := rfl
  have h2 : ("] " : String).length = 2 := rfl
  omega

/-- Length of a Python slice. -/
theorem pySlice_length (s : String) (n : Int) :
    (pySlice s n).length = min n.toNat s.length := by
  show (s.data.take n.toNat).length = _
  rw [List.length_take]
  rfl

/-- Joining adds at most one separator per part. -/
theorem pyJoin_length_le (sep : String) :
    ∀ parts : List String,
      (pyJoin sep parts).length ≤
        (parts.map String.length).sum + sep.length * parts.length := by
  intro parts
  induction parts with
  | nil => simp [pyJoin]
  | cons x xs ih =>
    cases xs with
    | nil => simp [pyJoin]
    | cons y ys =>
      rw [pyJoin, String.length_append, String.length_append]
      simp only [List.map_cons, List.sum_cons, List.length_cons] at ih ⊢
      rw [Nat.mul_succ]
      generalize sep.length * (ys.length + 1) = M at ih ⊢
      omega

/-- Every search result's document and metadata come from the store. -/
theorem search_mem_store {encode : String → List ℚ} {e : RAGEngine} {q : String}
    {k : Int} {θ : ℚ} {r : SearchResult}
    (h : r ∈ RAGEngine.search encode e q k θ) :
    r.1 ∈ e.documents ∧ r.2.1 ∈ e.metadata := by
  rw [RAGEngine.search, List.mem_insertionSort] at h
  obtain ⟨p, _, hc⟩ := List.mem_filterMap.mp h
  obtain ⟨_, _, hd, hm⟩ := (candOf_eq_some e θ p r).mp hc
  exact ⟨List.get?_mem hd, List.get?_mem hm⟩

/-- Search returns at most `k` results. -/
theorem search_length_le (encode : String → List ℚ) (e : RAGEngine) (q : String)
    (k : Int) (θ : ℚ) :
    (RAGEngine.search encode e q k θ).length ≤ k.toNat := by
  rw [RAGEngine.search, List.length_insertionSort, searchCandidates, vectorSearch]
  calc (List.filterMap (candOf e θ)
        ((List.insertionSort distRel (scanDists (encode q) e.vectors 0)).take k.toNat)).length
      ≤ ((List.insertionSort distRel (scanDists (encode q) e.vectors 0)).take k.toNat).length :=
        List.length_filterMap_le _ _
    _ ≤ k.toNat := List.length_take_le _ _

/-- The context loop emits at most one block per result. -/
theorem contextParts_length_le (maxLen : Int) :
    ∀ (rs : List SearchResult) (total : Int),
      (contextParts maxLen rs total).length ≤ rs.length := by
  intro rs
  induction rs with
  | nil => intro total; simp [contextParts]
  | cons r rs ih =>
    intro total
    obtain ⟨doc, meta, score⟩ := r
    rw [contextParts]
    by_cases hfit : total + (doc.length : Int) ≤ maxLen
    · rw [if_pos hfit]
      simpa using Nat.succ_le_succ (ih _)
    · rw [if_neg hfit]
      by_cases htr : 100 < maxLen - total
      · rw [if_pos htr]
        simp [Nat.succ_le_succ]
      · rw [if_neg htr]
        simp

/-- Budget bound of the context loop: the emitted blocks carry at most
`maxLen - total` document characters plus the ellipsis (3) plus a per-block
overhead of the category tag (at most `C + 3` when every category has length
at most `C`). -/
theorem contextParts_sum_bound (C : Nat) (maxLen : Int) :
    ∀ (rs : List SearchResult) (total : Int),
      total ≤ maxLen →
      (∀ r ∈ rs, r.2.1.category.length ≤ C) →
      ((((contextParts maxLen rs total).map String.length).sum : Int) ≤
        (maxLen - total) + 3 +
          ((contextParts maxLen rs total).length : Int) * ((C : Int) + 3)) := by
  intro rs
  induction rs with
  | nil =>
    intro total h1 _
    simp [contextParts]
    linarith
  | cons r rs ih =>
    intro total h1 h2
    obtain ⟨doc, meta, score⟩ := r
    have hcat : (meta.category.length : Int) ≤ (C : Int) := by
      exact_mod_cast h2 (doc, meta, score) (List.mem_cons_self _ _)
    rw [contextParts]
    by_cases hfit : total + (doc.length : Int) ≤ maxLen
    · rw [if_pos hfit]
      have hih := ih (total + (doc.length : Int)) hfit
        (fun r hr => h2 r (List.mem_cons_of_mem _ hr))
      simp only [List.map_cons, List.sum_cons, List.length_cons]
      rw [mkBlock_length]
      push_cast
      push_cast at hih
      linarith
    · rw [if_neg hfit]
      by_cases htr : 100 < maxLen - total
      · rw [if_pos htr]
        simp only [List.map_cons, List.map_nil, List.sum_cons, List.sum_nil,
          List.length_cons, List.length_nil]
        rw [String.length_append, mkBlock_length, pySlice_length]
        have h3 : ("..." : String).length = 3 := rfl
        have hsl : ((min (maxLen - total).toNat doc.length : Nat) : Int) ≤ maxLen - total := by
          have hmin : (min (maxLen - total).toNat doc.length : Nat) ≤ (maxLen - total).toNat :=
            Nat.min_le_left _ _
          have htn : (((maxLen - total).toNat : Nat) : Int) = maxLen - total :=
            Int.toNat_of_nonneg (by linarith)
          calc ((min (maxLen - total).toNat doc.length : Nat) : Int)
              ≤ (((maxLen - total).toNat : Nat) : Int) := by exact_mod_cast hmin
            _ = maxLen - total := htn
        push_cast
        push_cast at hsl
        linarith
      · rw [if_neg htr]
        simp
        linarith

/-- C1 counterexample: on a one-document store whose document has length 1,
a budget of 1 yields the context string of length 5 (the category tag is not
counted against the budget), exceeding `max_length` plus the 3-character
ellipsis marker. -/
theorem C1_context_budget_cex :
    ¬ ((RAGEngine.get_context_for_query wEncode wEngine "q" 1).length ≤
        1 + ("..." : String).length) := by
  have hq0 : ("q" : String).length = 1 := rfl
  have hq : ((("q" : String).length : ℚ)) = 1 := by
    rw [hq0]
    norm_num
  have hsearch : RAGEngine.search wEncode wEngine "q" 5 (7/10) =
      [("d", ⟨"c", [], 1, 0, none⟩, 1)] := by
    norm_num [RAGEngine.search, searchCandidates, candOf, vectorSearch, scanDists,
      sqDist, wEncode, wEngine, List.insertionSort, List.orderedInsert,
      List.filterMap, hq]
  have heval : RAGEngine.get_context_for_query wEncode wEngine "q" 1 = "[C] d" := by
    simp only [RAGEngine.get_context_for_query, hsearch]
    decide
  rw [heval]
  decide

/-- C1 (amended): over a store whose documents are nonempty and whose
category names have length at most `C`, the context string consists of at
most `max_length` document characters plus at most five `[CATEGORY] `
tags, four separators and one ellipsis marker, hence has length at most
`max_length + 5 * C + 28`; and the output is `""` whenever `max_length < 1`
or no candidate clears the default threshold. -/
theorem C1_context_budget (encode : String → List ℚ) (e : RAGEngine) (q : String)
    (maxLen : Int) (C : Nat)
    (hdocs : ∀ d ∈ e.documents, 1 ≤ d.length)
    (hcats : ∀ m ∈ e.metadata, m.category.length ≤ C) :
    (0 ≤ maxLen →
      ((RAGEngine.get_context_for_query encode e q maxLen).length : Int) ≤
        maxLen + (5 * (C : Int) + 28)) ∧
    (maxLen < 1 → RAGEngine.get_context_for_query encode e q maxLen = "") ∧
    (RAGEngine.search encode e q 5 (7/10) = [] →
      RAGEngine.get_context_for_query encode e q maxLen = "") := by
  refine ⟨?_, ?_, ?_⟩
  · intro h0
    simp only [RAGEngine.get_context_for_query]
    by_cases hemp : (RAGEngine.search encode e q 5 (7/10)).isEmpty
    · rw [if_pos hemp]
      have hz : (("" : String).length : Int) = 0 := rfl
      rw [hz]
      positivity
    · rw [if_neg hemp]
      have hcatall : ∀ r ∈ RAGEngine.search encode e q 5 (7/10),
          r.2.1.category.length ≤ C :=
        fun r hr => hcats _ (search_mem_store hr).2
      have hsum := contextParts_sum_bound C maxLen
        (RAGEngine.search encode e q 5 (7/10)) 0 h0 hcatall
      have hjoin := pyJoin_length_le "\n\n"
        (contextParts maxLen (RAGEngine.search encode e q 5 (7/10)) 0)
      have hsep : ("\n\n" : String).length = 2 := rfl
      rw [hsep] at hjoin
      have hlen1 := contextParts_length_le maxLen
        (RAGEngine.search encode e q 5 (7/10)) 0
      have hlen2 : (RAGEngine.search encode e q 5 (7/10)).length ≤ 5 := by
        simpa using search_length_le encode e q 5 (7/10)
      have hpl : ((contextParts maxLen (RAGEngine.search encode e q 5 (7/10)) 0).length : Int) ≤ 5 := by
        exact_mod_cast le_trans hlen1 hlen2
      have hp5 : ((contextParts maxLen (RAGEngine.search encode e q 5 (7/10)) 0).length : Int) *
          ((C : Int) + 3) ≤ 5 * ((C : Int) + 3) := by
        apply mul_le_mul_of_nonneg_right hpl
        positivity
      have hjoin2 : ((pyJoin "\n\n"
          (contextParts maxLen (RAGEngine.search encode e q 5 (7/10)) 0)).length : Int) ≤
          (((contextParts maxLen (RAGEngine.search encode e q 5 (7/10)) 0).map
            String.length).sum : Int) +
          2 * ((contextParts maxLen (RAGEngine.search encode e q 5 (7/10)) 0).length : Int) := by
        exact_mod_cast hjoin
      linarith
  · intro hlt
    simp only [RAGEngine.get_context_for_query]
    rcases hr : RAGEngine.search encode e q 5 (7/10) with _ | ⟨r, rs⟩
    · rfl
    · obtain ⟨doc, meta, score⟩ := r
      have hmem : ((doc, meta, score) : SearchResult) ∈
          RAGEngine.search encode e q 5 (7/10) := by
        rw [hr]
        exact List.mem_cons_self _ _
      have hdoc : 1 ≤ doc.length := hdocs _ (search_mem_store hmem).1
      have hne : ¬ (((doc, meta, score) :: rs : List SearchResult).isEmpty = true) := by
        simp
      rw [if_neg hne, contextParts]
      have hd1 : (1 : Int) ≤ (doc.length : Int) := by exact_mod_cast hdoc
      rw [if_neg (by omega), if_neg (by omega)]
      rfl
  · intro h
    simp only [RAGEngine.get_context_for_query]
    rw [h]
    rfl

/-- Witness for C1 on a concrete one-document store with `C = 1` and
budget 2. -/
theorem C1_context_budget_witness :
    ((RAGEngine.get_context_for_query wEncode wEngine "q" 2).length : Int) ≤
      2 + (5 * (1 : Int) + 28) :=
  (C1_context_budget wEncode wEngine "q" 2 1
    (by decide) (by decide)).1 (by norm_num)
